import Mathlib

/-!
Verification of the concurrent frame-processing core of the
KinectInterfacePrimesense repository.

The repository ships the interface header
`kinect_interface/include/kinect_interface_primesense/kinect_interface_primesense.h`;
the method bodies (kinectUpdateThread, performConversions, convertDepthToWorld,
convertRGBToDepth, executeThreadCallbacks, ...) live in a .cpp translation unit
that is not part of the sources here.  Compile-time constants and the public
member surface are transcribed from the header; every behavioural definition is
modelled from the specification's description of the pipeline and is marked
`Modelled from the spec:` in its doc comment.
-/

/-- Transcribed from the header: image width constant `src_width`. -/
def src_width : Nat := 640

/-- Transcribed from the header: image height constant `src_height`. -/
def src_height : Nat := 480

/-- Transcribed from the header: `src_dim` is `src_width * src_height`. -/
def src_dim : Nat := src_width * src_height

/-- Transcribed from the header: compile-time mirroring flag `MIRROR`,
defined as `true` ("true if you want to mirror all kinect data"). -/
def MIRROR : Bool := true

/-- Transcribed from the header: number of worker threads in the pool. -/
def KINECT_INTERFACE_NUM_WORKER_THREADS : Nat := 4

/-- Transcribed from the header: bounded wait timeout for stream reads. -/
def OPENNI_WAIT_TIMEOUT : Nat := 50

/-! ## Row-band partitioning (C1)

Modelled from the spec: "Row-range partitioning: divide the image height into
N_workers contiguous bands (boundary rows assigned to exactly one band);
remainder rows appended to the last band."  Each of the `N` bands is the
half-open row interval `[bandStart, bandEnd)`; band `i` starts at `i * (H / N)`
and every band except the last ends where the next one starts, while the last
band absorbs the remainder rows and ends at `H`. -/

/-- Modelled from the spec: first row of band `i` when height `H` is divided
into `N` contiguous bands. -/
def bandStart (H N i : Nat) : Nat := i * (H / N)

/-- Modelled from the spec: one past the last row of band `i`; the last band
absorbs the remainder rows up to `H`. -/
def bandEnd (H N i : Nat) : Nat := if i + 1 = N then H else (i + 1) * (H / N)

/-- The task partitions handed to the workers for one frame: band `i` covers
rows `[bandStart, bandEnd)`. -/
def partitionRows (H N : Nat) : List (Nat × Nat) :=
  (List.range N).map fun i => (bandStart H N i, bandEnd H N i)

/-- Number of bands to which row `r` is assigned: the row-assignment count the
spec asks to sum. -/
def rowAssignmentCount (H N r : Nat) : Nat :=
  ((Finset.range N).filter fun i => bandStart H N i ≤ r ∧ r < bandEnd H N i).card

/-- The unique band that row `r` falls into. -/
def assignedBand (H N r : Nat) : Nat :=
  if H / N = 0 then N - 1 else min (r / (H / N)) (N - 1)

lemma assignedBand_lt (H N r : Nat) (hN : 0 < N) : assignedBand H N r < N := by
  unfold assignedBand
  split
  · omega
  · exact lt_of_le_of_lt (min_le_right _ _) (Nat.sub_lt hN Nat.one_pos)

lemma assignedBand_mem (H N r : Nat) (hN : 0 < N) (hr : r < H) :
    bandStart H N (assignedBand H N r) ≤ r ∧ r < bandEnd H N (assignedBand H N r) := by
  by_cases hq : H / N = 0
  · have hab : assignedBand H N r = N - 1 := by
      unfold assignedBand; rw [if_pos hq]
    rw [hab]
    unfold bandStart bandEnd
    have hN1 : N - 1 + 1 = N := by omega
    rw [if_pos hN1, hq, Nat.mul_zero]
    exact ⟨Nat.zero_le r, hr⟩
  · have hqpos : 0 < H / N := Nat.pos_of_ne_zero hq
    rcases le_or_lt (N - 1) (r / (H / N)) with hle | hlt
    · have hab : assignedBand H N r = N - 1 := by
        unfold assignedBand; rw [if_neg hq, min_eq_right hle]
      rw [hab]
      unfold bandStart bandEnd
      have hN1 : N - 1 + 1 = N := by omega
      rw [if_pos hN1]
      refine ⟨?_, hr⟩
      calc (N - 1) * (H / N) ≤ (r / (H / N)) * (H / N) :=
            Nat.mul_le_mul_right _ hle
        _ ≤ r := Nat.div_mul_le_self r (H / N)
    · have hab : assignedBand H N r = r / (H / N) := by
        unfold assignedBand; rw [if_neg hq, min_eq_left (le_of_lt hlt)]
      rw [hab]
      unfold bandStart bandEnd
      have hne : r / (H / N) + 1 ≠ N := by omega
      rw [if_neg hne]
      refine ⟨Nat.div_mul_le_self r (H / N), ?_⟩
      exact (Nat.div_lt_iff_lt_mul hqpos).mp (Nat.lt_succ_self _)

lemma assignedBand_unique (H N i r : Nat) (hN : 0 < N) (hi : i < N)
    (h1 : bandStart H N i ≤ r) (h2 : r < bandEnd H N i) :
    i = assignedBand H N r := by
  unfold bandStart at h1
  unfold bandEnd at h2
  unfold assignedBand
  by_cases hq : H / N = 0
  · rw [if_pos hq]
    by_cases hiN : i + 1 = N
    · omega
    · rw [if_neg hiN, hq, Nat.mul_zero] at h2
      omega
  · have hqpos : 0 < H / N := Nat.pos_of_ne_zero hq
    rw [if_neg hq]
    by_cases hiN : i + 1 = N
    · have hle : N - 1 ≤ r / (H / N) := by
        have hi1 : i = N - 1 := by omega
        rw [hi1] at h1
        exact (Nat.le_div_iff_mul_le hqpos).mpr h1
      rw [min_eq_right hle]
      omega
    · rw [if_neg hiN] at h2
      have hdiv : r / (H / N) = i := Nat.div_eq_of_lt_le h1 h2
      rw [hdiv, min_eq_left (by omega)]

/-- C1. For every frame, the row-band partitioning divides the image height
into contiguous, disjoint bands whose union covers every row exactly once:
every row index `r < H` is assigned to exactly one of the `N` task
partitions (any remainder rows land in the last band by construction of
`bandEnd`). -/
theorem rowBandPartition_covers_each_row_exactly_once
    (H N r : Nat) (hN : 0 < N) (hr : r < H) :
    rowAssignmentCount H N r = 1 := by
  unfold rowAssignmentCount
  rw [Finset.card_eq_one]
  refine ⟨assignedBand H N r, ?_⟩
  rw [Finset.eq_singleton_iff_unique_mem]
  constructor
  · rw [Finset.mem_filter, Finset.mem_range]
    exact ⟨assignedBand_lt H N r hN, assignedBand_mem H N r hN hr⟩
  · intro b hb
    rw [Finset.mem_filter, Finset.mem_range] at hb
    exact assignedBand_unique H N b r hN hb.1 hb.2.1 hb.2.2

/-- Witness for C1 at the build's concrete dimensions: height 480, 4 worker
threads, row 123 is assigned to exactly one partition. -/
theorem rowBandPartition_covers_each_row_exactly_once_witness :
    0 < 4 ∧ 123 < 480 ∧ rowAssignmentCount 480 4 123 = 1 :=
  ⟨by decide, by decide,
    rowBandPartition_covers_each_row_exactly_once 480 4 123 (by decide) (by decide)⟩

/-! ## Completion barrier (C2, header symbols `threads_finished_`,
`not_finished_`, `executeThreadCallbacks`)

Modelled from the spec: `dispatchAndWait` resets a shared completion counter
to the number of submitted tasks; each worker callback decrements the counter
after finishing its partition and signals a condition variable when it reaches
zero; the issuing (Capture) thread blocks until the counter is zero.  The
model is an interleaving transition system: `done i = true` records that task
`i`'s writes are fully completed (they precede its decrement in program
order), so a release state in which every task is done expresses the
happens-before guarantee at the level of this model. -/

/-- State of one `dispatchAndWait` batch of `K` tasks: the shared counter
(`threads_finished_` in the header, held as an integer so that "never
negative" is a real statement), per-task completion flags, and whether the
issuing thread's wait has returned. -/
structure BarrierState (K : Nat) where
  counter : Int
  done : Fin K → Bool
  released : Bool

/-- Modelled from the spec: the batch starts with the counter reset to `K`,
no task complete, and the issuing thread not yet released. -/
def barrierInit (K : Nat) : BarrierState K :=
  ⟨(K : Int), fun _ => false, false⟩

/-- Modelled from the spec: the two events of a batch.  A worker finishes a
not-yet-finished task and decrements the counter; the issuing thread's wait
returns only when the counter is zero. -/
inductive BarrierStep (K : Nat) : BarrierState K → BarrierState K → Prop where
  | taskComplete (s : BarrierState K) (i : Fin K) (h : s.done i = false) :
      BarrierStep K s
        ⟨s.counter - 1, fun j => if j = i then true else s.done j, s.released⟩
  | waitReturn (s : BarrierState K) (h : s.counter = 0) (hr : s.released = false) :
      BarrierStep K s ⟨s.counter, s.done, true⟩

/-- States reachable from the start of a batch. -/
inductive BarrierReachable (K : Nat) : BarrierState K → Prop where
  | init : BarrierReachable K (barrierInit K)
  | step {s t : BarrierState K} :
      BarrierReachable K s → BarrierStep K s t → BarrierReachable K t

/-- Number of tasks of the batch that have signalled completion. -/
def doneCount {K : Nat} (s : BarrierState K) : Nat :=
  (Finset.univ.filter fun i => s.done i = true).card

lemma doneCount_update {K : Nat} (d : Fin K → Bool) (i : Fin K) (hd : d i = false) :
    (Finset.univ.filter fun j => (if j = i then true else d j) = true).card =
      (Finset.univ.filter fun j => d j = true).card + 1 := by
  have hins : (Finset.univ.filter fun j => (if j = i then true else d j) = true) =
      insert i (Finset.univ.filter fun j => d j = true) := by
    ext j
    by_cases hj : j = i
    · subst hj; simp
    · simp [hj]
  rw [hins, Finset.card_insert_of_not_mem]
  simp [hd]

lemma doneCount_le {K : Nat} (s : BarrierState K) : doneCount s ≤ K := by
  have h := Finset.card_filter_le Finset.univ (fun i => s.done i = true)
  simpa [Finset.card_univ] using h

lemma doneCount_full {K : Nat} {s : BarrierState K} (h : doneCount s = K) :
    ∀ i : Fin K, s.done i = true := by
  have huniv : (Finset.univ.filter fun i => s.done i = true) = Finset.univ := by
    apply Finset.eq_univ_of_card
    unfold doneCount at h
    rw [h, Fintype.card_fin]
  intro i
  have hmem := Finset.mem_univ i
  rw [← huniv, Finset.mem_filter] at hmem
  exact hmem.2

lemma barrier_inv {K : Nat} {s : BarrierState K} (h : BarrierReachable K s) :
    s.counter = (K : Int) - doneCount s ∧ (s.released = true → s.counter = 0) := by
  induction h with
  | init =>
      refine ⟨?_, ?_⟩
      · simp [barrierInit, doneCount]
      · intro hr
        simp [barrierInit] at hr
  | @step s t hreach hstep ih =>
      cases hstep with
      | taskComplete i hd =>
          have h1 : doneCount (⟨s.counter - 1,
              fun j => if j = i then true else s.done j,
              s.released⟩ : BarrierState K) = doneCount s + 1 := by
            unfold doneCount
            dsimp only
            exact doneCount_update s.done i hd
          refine ⟨?_, ?_⟩
          · dsimp only
            rw [h1]
            have hK := ih.1
            push_cast
            omega
          · intro hr
            dsimp only at hr
            have h0 := ih.2 hr
            have hK := ih.1
            rw [h0] at hK
            have hle := doneCount_le s
            have hcnt : doneCount s = K := by omega
            have hall := doneCount_full hcnt i
            rw [hall] at hd
            cases hd
      | waitReturn h0 hr =>
          exact ⟨ih.1, fun _ => h0⟩

/-- C2. At every reachable point of a `dispatchAndWait` batch of `K` tasks,
the shared completion counter is never negative, and if the issuing thread's
wait has returned then the counter is exactly zero and every one of the `K`
task partitions has signalled completion (its writes precede the release in
the interleaving): the wait never returns early. -/
theorem dispatchAndWait_releases_only_after_all_tasks
    (K : Nat) (s : BarrierState K) (h : BarrierReachable K s) :
    0 ≤ s.counter ∧
      (s.released = true → s.counter = 0 ∧ ∀ i : Fin K, s.done i = true) := by
  obtain ⟨hc, hrel⟩ := barrier_inv h
  have hle : doneCount s ≤ K := doneCount_le s
  refine ⟨?_, ?_⟩
  · rw [hc]
    have : (doneCount s : Int) ≤ (K : Int) := by exact_mod_cast hle
    omega
  · intro hr
    refine ⟨hrel hr, ?_⟩
    have h0 := hrel hr
    rw [hc] at h0
    have hcnt : doneCount s = K := by omega
    exact doneCount_full hcnt

/-- Witness for C2: a concrete batch of one task, run to completion and
released; the theorem applies to the resulting reachable state. -/
theorem dispatchAndWait_releases_only_after_all_tasks_witness :
    0 ≤ ((1 : Int) - 1) ∧
      (true = true → (1 : Int) - 1 = 0 ∧
        ∀ i : Fin 1, (if i = (0 : Fin 1) then true else (fun _ : Fin 1 => false) i) = true) := by
  exact dispatchAndWait_releases_only_after_all_tasks 1
    ⟨(1 : Int) - 1, fun j => if j = (0 : Fin 1) then true else (fun _ : Fin 1 => false) j, true⟩
    (BarrierReachable.step
      (BarrierReachable.step BarrierReachable.init
        (BarrierStep.taskComplete (barrierInit 1) 0 rfl))
      (BarrierStep.waitReturn _ (by decide) rfl))

/-! ## Snapshot publication under the exclusive data lock (C3, header symbols
`lockData`, `unlockData`, `data_lock_`)

Modelled from the spec: the snapshot is the aggregate of depth, registered
color, world points, labels and metadata, replaced as a unit by the Capture
Thread's publish step, which runs entirely inside the same exclusive lock the
consumer takes via `lockData`.  Each buffer is modelled by the version number
of the frame it holds; a mixed snapshot would be a state in which the version
numbers disagree.  Because accessors may only be called while the consumer
holds the lock, the publish step (acquire, write all buffers, release) admits
no consumer observation in its interior and is modelled as one atomic
transition guarded by the lock being free. -/

/-- Lock-and-buffer state visible to a consumer: whether the consumer holds
`data_lock_`, and the frame version held by each published buffer. -/
structure SnapshotState where
  consumerHoldsLock : Bool
  depthV : Nat
  registeredRgbV : Nat
  worldV : Nat
  labelsV : Nat
  metaV : Nat

/-- Initial snapshot: lock free, all buffers holding frame 0. -/
def snapInit : SnapshotState := ⟨false, 0, 0, 0, 0, 0⟩

/-- Modelled from the spec: consumer lock/unlock via `lockData`/`unlockData`,
and the Capture Thread's publish step, which acquires the same exclusive lock
(hence requires the consumer not to hold it) and replaces every buffer of the
snapshot with the new frame `v` before releasing. -/
inductive SnapStep : SnapshotState → SnapshotState → Prop where
  | consumerLock (s : SnapshotState) (h : s.consumerHoldsLock = false) :
      SnapStep s ⟨true, s.depthV, s.registeredRgbV, s.worldV, s.labelsV, s.metaV⟩
  | consumerUnlock (s : SnapshotState) (h : s.consumerHoldsLock = true) :
      SnapStep s ⟨false, s.depthV, s.registeredRgbV, s.worldV, s.labelsV, s.metaV⟩
  | publish (s : SnapshotState) (v : Nat) (h : s.consumerHoldsLock = false) :
      SnapStep s ⟨false, v, v, v, v, v⟩

/-- Snapshot states reachable from startup. -/
inductive SnapReachable : SnapshotState → Prop where
  | init : SnapReachable snapInit
  | step {s t : SnapshotState} : SnapReachable s → SnapStep s t → SnapReachable t

/-- A snapshot is coherent when all five buffers hold the same frame:
no mix of old and new. -/
def snapCoherent (s : SnapshotState) : Prop :=
  s.registeredRgbV = s.depthV ∧ s.worldV = s.depthV ∧
    s.labelsV = s.depthV ∧ s.metaV = s.depthV

lemma snapCoherent_of_reachable {s : SnapshotState} (h : SnapReachable s) :
    snapCoherent s := by
  induction h with
  | init => exact ⟨rfl, rfl, rfl, rfl⟩
  | @step s t hreach hstep ih =>
      cases hstep with
      | consumerLock h => exact ih
      | consumerUnlock h => exact ih
      | publish v h => exact ⟨rfl, rfl, rfl, rfl⟩

/-- C3. Snapshot publication is atomic with respect to consumers: every
reachable snapshot is coherent (all five buffers hold the same frame, never a
mix of old and new), and while a consumer holds the data lock no transition
of the system can change any published buffer (the Capture Thread's publish
acquires the same exclusive lock, so it is blocked), so the consumer observes
either the fully-old or the fully-new snapshot. -/
theorem snapshot_publication_atomic (s t : SnapshotState)
    (hreach : SnapReachable s) (hstep : SnapStep s t) :
    snapCoherent s ∧
      (s.consumerHoldsLock = true →
        t.depthV = s.depthV ∧ t.registeredRgbV = s.registeredRgbV ∧
          t.worldV = s.worldV ∧ t.labelsV = s.labelsV ∧ t.metaV = s.metaV) := by
  refine ⟨snapCoherent_of_reachable hreach, ?_⟩
  intro hl
  cases hstep with
  | consumerLock h => exact ⟨rfl, rfl, rfl, rfl, rfl⟩
  | consumerUnlock h => exact ⟨rfl, rfl, rfl, rfl, rfl⟩
  | publish v h => rw [h] at hl; cases hl

/-- Witness for C3: a consumer locks the snapshot right after startup and then
unlocks; the theorem applies to that lock-holding state and the unlock step. -/
theorem snapshot_publication_atomic_witness :
    snapCoherent ⟨true, 0, 0, 0, 0, 0⟩ ∧
      ((true : Bool) = true →
        (0 = 0 ∧ 0 = 0 ∧ 0 = 0 ∧ 0 = 0 ∧ 0 = 0 :
          Prop)) := by
  exact snapshot_publication_atomic ⟨true, 0, 0, 0, 0, 0⟩ ⟨false, 0, 0, 0, 0, 0⟩
    (SnapReachable.step SnapReachable.init (SnapStep.consumerLock snapInit rfl))
    (SnapStep.consumerUnlock _ rfl)

/-! ## Conversion stage (C4, C5, C6, C10; header symbols
`convertDepthToWorld`, `convertRGBToDepth`, `pts_world_`, `registered_rgb_`,
`flip_image_`, `setFlipImage`)

Modelled from the spec: per depth pixel `(x, y)` with raw depth `d` inside the
sensor's valid range (invalid is 0 or the sensor maximum), the Depth→World
conversion computes `((x-cx)*d/fx, (y-cy)*d/fy, d)` in the native depth unit
and scales by a fixed conversion factor; invalid depth maps to a fixed
sentinel.  Color→Depth registration projects a valid pixel's world point
through the color camera to integer color coordinates and copies the sample
when it is in bounds, otherwise writes the "no color" sentinel.  Real-valued
camera arithmetic is embedded over `ℚ`.  Mirroring (`flip_image_`) flips the
column index before lookup and negates the world x-output, applied
consistently across the depth, world and registered-color buffers. -/

/-- Depth-camera intrinsics: principal point and focal lengths. -/
structure Intrinsics where
  cx : ℚ
  cy : ℚ
  fx : ℚ
  fy : ℚ

/-- A 3D world point produced for one depth pixel. -/
structure WorldPt where
  wx : ℚ
  wy : ℚ
  wz : ℚ
  deriving DecidableEq

/-- Modelled from the spec: a raw depth sample is valid unless it is 0 or the
sensor's maximum value. -/
def isValidDepth (dmax d : Nat) : Bool := decide (d ≠ 0) && decide (d ≠ dmax)

/-- Modelled from the spec: the fixed sentinel world point for invalid depth
(the coordinate at the sensor origin). -/
def worldSentinel : WorldPt := ⟨0, 0, 0⟩

/-- Modelled from the spec: the Depth→World conversion of one pixel
(`convertDepthToWorld` applies this to every pixel of its row band, writing
`pts_world_`): valid depth produces the intrinsics formula scaled by the
fixed unit-conversion factor, invalid depth produces the sentinel. -/
def convertDepthPixelToWorld (intr : Intrinsics) (scale : ℚ)
    (dmax x y d : Nat) : WorldPt :=
  if isValidDepth dmax d then
    ⟨scale * (((x : ℚ) - intr.cx) * (d : ℚ) / intr.fx),
     scale * (((y : ℚ) - intr.cy) * (d : ℚ) / intr.fy),
     scale * (d : ℚ)⟩
  else worldSentinel

/-- The claim's two-stage reading of the formula, first stage: normalized
device coordinates in the sensor's native depth unit. -/
def nativeWorldPt (intr : Intrinsics) (x y d : Nat) : WorldPt :=
  ⟨((x : ℚ) - intr.cx) * (d : ℚ) / intr.fx,
   ((y : ℚ) - intr.cy) * (d : ℚ) / intr.fy,
   (d : ℚ)⟩

/-- The claim's two-stage reading of the formula, second stage: scale every
coordinate by the fixed conversion factor to the common unit. -/
def scaleWorldPt (scale : ℚ) (p : WorldPt) : WorldPt :=
  ⟨scale * p.wx, scale * p.wy, scale * p.wz⟩

/-- C4. For every depth pixel whose raw depth is within the sensor's valid
range, the Depth→World conversion produces exactly
`((x-cx)*d/fx, (y-cy)*d/fy, d)` in the native depth unit scaled by the fixed
conversion factor. -/
theorem depthToWorld_formula (intr : Intrinsics) (scale : ℚ) (dmax x y d : Nat)
    (h0 : d ≠ 0) (hmax : d ≠ dmax) :
    convertDepthPixelToWorld intr scale dmax x y d =
      scaleWorldPt scale (nativeWorldPt intr x y d) := by
  have hv : isValidDepth dmax d = true := by
    unfold isValidDepth
    simp [h0, hmax]
  unfold convertDepthPixelToWorld
  rw [hv]
  rfl

/-- Witness for C4: a concrete valid pixel, evaluated. -/
theorem depthToWorld_formula_witness :
    (2000 ≠ 0) ∧ (2000 ≠ 10000) ∧
      convertDepthPixelToWorld ⟨320, 240, 580, 580⟩ (1 / 1000) 10000 100 50 2000 =
        scaleWorldPt (1 / 1000) (nativeWorldPt ⟨320, 240, 580, 580⟩ 100 50 2000) :=
  ⟨by decide, by decide,
    depthToWorld_formula ⟨320, 240, 580, 580⟩ (1 / 1000) 10000 100 50 2000
      (by decide) (by decide)⟩

/-- Mirror of a column index within an image of width `W`. -/
def mirrorCol (W x : Nat) : Nat := W - 1 - x

/-- Horizontal mirror of a world point: the x-output is negated. -/
def mirrorWorldPt (p : WorldPt) : WorldPt := ⟨-p.wx, p.wy, p.wz⟩

/-- Modelled from the spec: the exposed depth buffer; with mirroring enabled
(`flip_image_`) the column index is flipped before lookup. -/
def depthBufferOut (flip : Bool) (W : Nat) (raw : Nat → Nat → Nat)
    (x y : Nat) : Nat :=
  if flip then raw (mirrorCol W x) y else raw x y

/-- Modelled from the spec: the exposed world-point buffer (`pts_world_`);
with mirroring enabled the column index is flipped before the depth lookup
and the x-output is negated, consistently with the depth buffer. -/
def worldBufferOut (flip : Bool) (intr : Intrinsics) (scale : ℚ)
    (dmax W : Nat) (raw : Nat → Nat → Nat) (x y : Nat) : WorldPt :=
  if flip then
    mirrorWorldPt (convertDepthPixelToWorld intr scale dmax
      (mirrorCol W x) y (raw (mirrorCol W x) y))
  else
    convertDepthPixelToWorld intr scale dmax x y (raw x y)

/-- Color-camera intrinsics used by Color→Depth registration. -/
structure ColorCam where
  ccx : ℚ
  ccy : ℚ
  cfx : ℚ
  cfy : ℚ

/-- Modelled from the spec: the "no color" sentinel (zeroed pixel). -/
def noColorSentinel : Nat := 0

/-- Modelled from the spec: project a world point through the color camera's
intrinsics to integer color-image coordinates. -/
def projectToColor (cam : ColorCam) (p : WorldPt) : Int × Int :=
  (⌊cam.ccx + cam.cfx * p.wx / p.wz⌋, ⌊cam.ccy + cam.cfy * p.wy / p.wz⌋)

/-- Bounds test for projected color coordinates. -/
def colorInBounds (Wc Hc : Nat) (uv : Int × Int) : Bool :=
  decide (0 ≤ uv.1) && decide (uv.1 < (Wc : Int)) &&
    decide (0 ≤ uv.2) && decide (uv.2 < (Hc : Int))

/-- Modelled from the spec: Color→Depth registration of one depth pixel
(`convertRGBToDepth` applies this to every pixel of its row band, writing
`registered_rgb_`): a pixel with a valid world point projects into the color
image and copies the in-bounds sample; anything else gets the "no color"
sentinel. -/
def registerPixel (intr : Intrinsics) (cam : ColorCam) (scale : ℚ)
    (dmax Wc Hc : Nat) (color : Int → Int → Nat) (x y d : Nat) : Nat :=
  if isValidDepth dmax d then
    let uv := projectToColor cam (convertDepthPixelToWorld intr scale dmax x y d)
    if colorInBounds Wc Hc uv then color uv.1 uv.2 else noColorSentinel
  else noColorSentinel

/-- Modelled from the spec: the exposed registered-color buffer; with
mirroring enabled the column index is flipped before lookup, consistently
with the depth and world buffers. -/
def registeredBufferOut (flip : Bool) (intr : Intrinsics) (cam : ColorCam)
    (scale : ℚ) (dmax W Wc Hc : Nat) (raw : Nat → Nat → Nat)
    (color : Int → Int → Nat) (x y : Nat) : Nat :=
  if flip then
    registerPixel intr cam scale dmax Wc Hc color
      (mirrorCol W x) y (raw (mirrorCol W x) y)
  else
    registerPixel intr cam scale dmax Wc Hc color x y (raw x y)

/-- C5. A frame in which every raw depth sample is invalid yields a world
buffer that is everywhere the invalid-depth sentinel and a registered color
buffer that is everywhere the "no color" sentinel, at every pixel and with
either mirroring setting. -/
theorem allInvalid_frame_yields_all_sentinels (flip : Bool) (intr : Intrinsics)
    (cam : ColorCam) (scale : ℚ) (dmax W Wc Hc : Nat)
    (raw : Nat → Nat → Nat) (color : Int → Int → Nat) (x y : Nat)
    (hinv : ∀ a b : Nat, isValidDepth dmax (raw a b) = false) :
    worldBufferOut flip intr scale dmax W raw x y = worldSentinel ∧
      registeredBufferOut flip intr cam scale dmax W Wc Hc raw color x y =
        noColorSentinel := by
  constructor
  · unfold worldBufferOut convertDepthPixelToWorld
    cases flip
    · simp [hinv]
    · simp [hinv, mirrorWorldPt, worldSentinel]
  · unfold registeredBufferOut registerPixel
    cases flip
    · simp [hinv]
    · simp [hinv]

/-- Witness for C5: an all-zero (hence all-invalid) 4x4 depth frame. -/
theorem allInvalid_frame_yields_all_sentinels_witness :
    worldBufferOut true ⟨2, 2, 1, 1⟩ 1 9 4 (fun _ _ => 0) 1 2 = worldSentinel ∧
      registeredBufferOut true ⟨2, 2, 1, 1⟩ ⟨1, 1, 1, 1⟩ 1 9 4 4 4
        (fun _ _ => 0) (fun u v => (u + 2 * v).toNat) 1 2 = noColorSentinel :=
  allInvalid_frame_yields_all_sentinels true ⟨2, 2, 1, 1⟩ ⟨1, 1, 1, 1⟩ 1 9 4 4 4
    (fun _ _ => 0) (fun u v => (u + 2 * v).toNat) 1 2
    (fun _ _ => by show isValidDepth 9 0 = false; decide)

lemma mirrorWorldPt_mirrorWorldPt (p : WorldPt) :
    mirrorWorldPt (mirrorWorldPt p) = p := by
  cases p
  simp [mirrorWorldPt]

lemma mirrorCol_mirrorCol (W x : Nat) (hx : x < W) :
    mirrorCol W (mirrorCol W x) = x := by
  unfold mirrorCol
  omega

/-- C6. For the same raw input, the conversion with mirroring enabled is the
exact horizontal mirror of the conversion with mirroring disabled: world
points at column `x` are the x-negated world points at column `W-1-x`, the
registered color at column `x` is the registered color at column `W-1-x`
(in both directions, so the correspondence is a bijection), and the depth
buffer is flipped by the same column map, keeping the three buffers
spatially aligned. -/
theorem mirroring_produces_horizontal_mirror (intr : Intrinsics)
    (cam : ColorCam) (scale : ℚ) (dmax W Wc Hc : Nat)
    (raw : Nat → Nat → Nat) (color : Int → Int → Nat) (x y : Nat)
    (hx : x < W) :
    worldBufferOut true intr scale dmax W raw x y =
        mirrorWorldPt (worldBufferOut false intr scale dmax W raw (mirrorCol W x) y) ∧
      mirrorWorldPt (worldBufferOut true intr scale dmax W raw (mirrorCol W x) y) =
        worldBufferOut false intr scale dmax W raw x y ∧
      registeredBufferOut true intr cam scale dmax W Wc Hc raw color x y =
        registeredBufferOut false intr cam scale dmax W Wc Hc raw color (mirrorCol W x) y ∧
      registeredBufferOut true intr cam scale dmax W Wc Hc raw color (mirrorCol W x) y =
        registeredBufferOut false intr cam scale dmax W Wc Hc raw color x y ∧
      depthBufferOut true W raw x y = depthBufferOut false W raw (mirrorCol W x) y := by
  have hmm := mirrorCol_mirrorCol W x hx
  refine ⟨rfl, ?_, ?_, ?_, rfl⟩
  · show mirrorWorldPt (mirrorWorldPt (convertDepthPixelToWorld intr scale dmax
        (mirrorCol W (mirrorCol W x)) y (raw (mirrorCol W (mirrorCol W x)) y))) =
      convertDepthPixelToWorld intr scale dmax x y (raw x y)
    rw [hmm, mirrorWorldPt_mirrorWorldPt]
  · calc registeredBufferOut true intr cam scale dmax W Wc Hc raw color x y
        = registerPixel intr cam scale dmax Wc Hc color
            (mirrorCol W x) y (raw (mirrorCol W x) y) := rfl
      _ = registeredBufferOut false intr cam scale dmax W Wc Hc raw color
            (mirrorCol W x) y := rfl
  · show registerPixel intr cam scale dmax Wc Hc color
        (mirrorCol W (mirrorCol W x)) y (raw (mirrorCol W (mirrorCol W x)) y) =
      registerPixel intr cam scale dmax Wc Hc color x y (raw x y)
    rw [hmm]

/-- Witness for C6: a concrete 4-wide frame with a non-constant depth
pattern, at column 1. -/
theorem mirroring_produces_horizontal_mirror_witness :
    1 < 4 ∧
      (worldBufferOut true ⟨2, 2, 1, 1⟩ 1 9 4 (fun a b => a + 10 * b + 1) 1 0 =
          mirrorWorldPt (worldBufferOut false ⟨2, 2, 1, 1⟩ 1 9 4
            (fun a b => a + 10 * b + 1) (mirrorCol 4 1) 0) ∧
        mirrorWorldPt (worldBufferOut true ⟨2, 2, 1, 1⟩ 1 9 4
            (fun a b => a + 10 * b + 1) (mirrorCol 4 1) 0) =
          worldBufferOut false ⟨2, 2, 1, 1⟩ 1 9 4 (fun a b => a + 10 * b + 1) 1 0 ∧
        registeredBufferOut true ⟨2, 2, 1, 1⟩ ⟨1, 1, 1, 1⟩ 1 9 4 4 4
            (fun a b => a + 10 * b + 1) (fun u v => (u + 2 * v).toNat) 1 0 =
          registeredBufferOut false ⟨2, 2, 1, 1⟩ ⟨1, 1, 1, 1⟩ 1 9 4 4 4
            (fun a b => a + 10 * b + 1) (fun u v => (u + 2 * v).toNat) (mirrorCol 4 1) 0 ∧
        registeredBufferOut true ⟨2, 2, 1, 1⟩ ⟨1, 1, 1, 1⟩ 1 9 4 4 4
            (fun a b => a + 10 * b + 1) (fun u v => (u + 2 * v).toNat) (mirrorCol 4 1) 0 =
          registeredBufferOut false ⟨2, 2, 1, 1⟩ ⟨1, 1, 1, 1⟩ 1 9 4 4 4
            (fun a b => a + 10 * b + 1) (fun u v => (u + 2 * v).toNat) 1 0 ∧
        depthBufferOut true 4 (fun a b => a + 10 * b + 1) 1 0 =
          depthBufferOut false 4 (fun a b => a + 10 * b + 1) (mirrorCol 4 1) 0) :=
  ⟨by decide,
    mirroring_produces_horizontal_mirror ⟨2, 2, 1, 1⟩ ⟨1, 1, 1, 1⟩ 1 9 4 4 4
      (fun a b => a + 10 * b + 1) (fun u v => (u + 2 * v).toNat) 1 0 (by decide)⟩

/-! ## Capture-cycle frame counters under timeouts (C7; header symbols
`depth_frame_number`, `rgb_frame_number`, `ir_frame_number`,
`OPENNI_WAIT_TIMEOUT`)

Modelled from the spec: each cycle pulls one frame from each configured
stream with a bounded wait; on a timeout the cycle is skipped and retried
(recoverable), leaving the snapshot and its counters untouched; on a
successful read the frame counters advance by exactly one. -/

/-- Outcome of one bounded-wait frame pull. -/
inductive ReadResult where
  | timeout : ReadResult
  | success : ReadResult

/-- The monotonically increasing frame counters of the snapshot metadata. -/
structure FrameCounters where
  depthN : Nat
  rgbN : Nat
  irN : Nat

/-- Modelled from the spec: the effect of one capture cycle on the frame
counters: a timed-out cycle is skipped, a successful cycle increments every
configured stream's counter by exactly one. -/
def captureCycle (s : FrameCounters) (r : ReadResult) : FrameCounters :=
  match r with
  | ReadResult.timeout => s
  | ReadResult.success => ⟨s.depthN + 1, s.rgbN + 1, s.irN + 1⟩

/-- C7. In any run where two consecutive frame reads time out and the third
succeeds, the frame counters are unchanged across both timed-out cycles and
are incremented by exactly 1 by the successful cycle. -/
theorem timeouts_leave_counters_then_success_increments (s : FrameCounters) :
    captureCycle s ReadResult.timeout = s ∧
      captureCycle (captureCycle s ReadResult.timeout) ReadResult.timeout = s ∧
      captureCycle (captureCycle (captureCycle s ReadResult.timeout)
          ReadResult.timeout) ReadResult.success =
        ⟨s.depthN + 1, s.rgbN + 1, s.irN + 1⟩ :=
  ⟨rfl, rfl, rfl⟩

/-! ## Worker-callback finally semantics (C8; header symbol
`threads_finished_`)

Modelled from the spec: every worker callback runs its conversion partition
and then decrements the shared completion counter exactly once, whether the
conversion completed normally or failed ("finally" semantics), so the
barrier always releases; a failure is recorded and surfaced after the wait:
the frame is marked degraded but still published. -/

/-- Outcome of one conversion partition. -/
inductive TaskOutcome where
  | ok : TaskOutcome
  | failed : TaskOutcome

/-- Counter and failure record of one batch. -/
structure BatchState where
  counter : Int
  failures : Nat

/-- Modelled from the spec: a batch of `K` tasks starts with the completion
counter reset to `K` and no recorded failure. -/
def batchInit (K : Nat) : BatchState := ⟨(K : Int), 0⟩

/-- Modelled from the spec: one worker callback: whatever the outcome of the
conversion, the counter is decremented exactly once, and a failure is
recorded. -/
def runCallback (s : BatchState) (o : TaskOutcome) : BatchState :=
  match o with
  | TaskOutcome.ok => ⟨s.counter - 1, s.failures⟩
  | TaskOutcome.failed => ⟨s.counter - 1, s.failures + 1⟩

/-- Running every callback of a batch in submission order. -/
def runBatch (s : BatchState) (os : List TaskOutcome) : BatchState :=
  os.foldl runCallback s

/-- What the Capture Thread sees after the barrier wait returns. -/
structure CycleResult where
  published : Bool
  degraded : Bool

/-- Modelled from the spec: after the wait returns, recorded failures are
surfaced: the frame is marked degraded when any task failed, but it is
published either way. -/
def finishCycle (s : BatchState) : CycleResult :=
  ⟨true, decide (0 < s.failures)⟩

lemma runBatch_counter (os : List TaskOutcome) :
    ∀ s : BatchState, (runBatch s os).counter = s.counter - os.length := by
  induction os with
  | nil => intro s; simp [runBatch]
  | cons o os ih =>
      intro s
      have hstep : runBatch s (o :: os) = runBatch (runCallback s o) os := rfl
      rw [hstep, ih (runCallback s o)]
      have hc : (runCallback s o).counter = s.counter - 1 := by cases o <;> rfl
      rw [hc]
      simp only [List.length_cons]
      push_cast
      ring

/-- C8. Every worker callback decrements the completion counter exactly once
whether its conversion succeeded or failed, so a full batch always drives the
counter to exactly zero and the barrier wait returns; a failed callback's
failure is recorded, and after the wait the frame is published in any case
and marked degraded exactly when some task failed. -/
theorem workerCallback_finally_decrements_and_frame_published
    (s : BatchState) (o : TaskOutcome) (os : List TaskOutcome) :
    (runCallback s o).counter = s.counter - 1 ∧
      (runCallback s TaskOutcome.failed).failures = s.failures + 1 ∧
      (runCallback s TaskOutcome.ok).failures = s.failures ∧
      (runBatch (batchInit os.length) os).counter = 0 ∧
      (finishCycle (runBatch (batchInit os.length) os)).published = true ∧
      ((finishCycle (runBatch (batchInit os.length) os)).degraded = true ↔
        0 < (runBatch (batchInit os.length) os).failures) := by
  refine ⟨?_, rfl, rfl, ?_, rfl, ?_⟩
  · cases o <;> rfl
  · rw [runBatch_counter os (batchInit os.length)]
    simp [batchInit]
  · unfold finishCycle
    exact decide_eq_true_iff

/-! ## Phase ordering inside performConversions (C9; header symbol
`performConversions`)

Modelled from the spec: `performConversions` partitions the depth image and
runs `dispatchAndWait` for Depth→World, and only then partitions again and
runs `dispatchAndWait` for Color→Depth registration, because registration
reads the world-point buffer.  The cycle is modelled by its event trace:
the completions of the `K` Depth→World partitions, the release of their
barrier, the starts of the `K` registration partitions, and the release of
the second barrier, in that order. -/

/-- Events of one performConversions cycle. -/
inductive ConvEvent where
  | depthToWorldDone : Nat → ConvEvent
  | depthBarrierReleased : ConvEvent
  | rgbToDepthStart : Nat → ConvEvent
  | rgbBarrierReleased : ConvEvent

/-- Modelled from the spec: the event trace of one performConversions cycle
with `K` partitions per stage. -/
def performConversionsTrace (K : Nat) : List ConvEvent :=
  ((List.range K).map ConvEvent.depthToWorldDone) ++
    ([ConvEvent.depthBarrierReleased] ++
      (((List.range K).map ConvEvent.rgbToDepthStart) ++
        [ConvEvent.rgbBarrierReleased]))

/-- Phase number of an event: all Depth→World completions come first, then
the barrier release, then registration starts, then the final release. -/
def convPhase : ConvEvent → Nat
  | ConvEvent.depthToWorldDone _ => 0
  | ConvEvent.depthBarrierReleased => 1
  | ConvEvent.rgbToDepthStart _ => 2
  | ConvEvent.rgbBarrierReleased => 3

lemma pairwise_of_forall_rel {α : Type} {R : α → α → Prop}
    (h : ∀ a b : α, R a b) : ∀ l : List α, l.Pairwise R
  | [] => List.Pairwise.nil
  | a :: l => List.Pairwise.cons (fun b _ => h a b) (pairwise_of_forall_rel h l)

/-- C9. Within every processing cycle, the whole Depth→World stage completes
(its `K` partition completions and its barrier release) strictly before any
Color→Depth registration task starts: the trace of the cycle is monotone in
the phase order, so a pair with a registration start (phase 2) before a
Depth→World completion (phase 0) or before the first barrier release
(phase 1) cannot occur. -/
theorem depthToWorld_completes_before_registration_starts (K : Nat) :
    (performConversionsTrace K).Pairwise
      (fun a b => convPhase a ≤ convPhase b) := by
  unfold performConversionsTrace
  rw [List.pairwise_append]
  refine ⟨?_, ?_, ?_⟩
  · rw [List.pairwise_map]
    exact pairwise_of_forall_rel (fun a b => le_refl 0) _
  · rw [List.pairwise_append]
    refine ⟨List.pairwise_singleton _ _, ?_, ?_⟩
    · rw [List.pairwise_append]
      refine ⟨?_, List.pairwise_singleton _ _, ?_⟩
      · rw [List.pairwise_map]
        exact pairwise_of_forall_rel (fun a b => le_refl 2) _
      · intro a ha b hb
        rcases List.mem_map.mp ha with ⟨i, hi, rfl⟩
        rw [List.mem_singleton.mp hb]
        simp [convPhase]
    · intro a ha b hb
      rw [List.mem_singleton.mp ha]
      rcases List.mem_append.mp hb with hb1 | hb2
      · rcases List.mem_map.mp hb1 with ⟨i, hi, rfl⟩
        simp [convPhase]
      · rw [List.mem_singleton.mp hb2]
        simp [convPhase]
  · intro a ha b hb
    rcases List.mem_map.mp ha with ⟨i, hi, rfl⟩
    rcases List.mem_append.mp hb with hb1 | hb2
    · rw [List.mem_singleton.mp hb1]
      exact Nat.zero_le _
    · rcases List.mem_append.mp hb2 with hb3 | hb4
      · rcases List.mem_map.mp hb3 with ⟨j, hj, rfl⟩
        exact Nat.zero_le _
      · rw [List.mem_singleton.mp hb4]
        exact Nat.zero_le _

/-! ## Mirroring unconditionally enabled in this build (C10; header symbols
`MIRROR`, `flip_image_`, `setFlipImage`) -/

/-- Transcribed from the header: the public member surface of
`KinectInterfacePrimesense`.  The mutators `setFlipImage`,
`setCropDepthToRGB` and `setDepthColorSync` sit in the private section and
are commented "internal use only". -/
def publicMemberFunctions : List String :=
  ["KinectInterfacePrimesense", "shutdownKinect", "findDevices", "rgb", "ir",
   "registered_rgb", "xyz", "depth", "depth1mm", "labels",
   "filteredDecisionForestLabels", "rawDecisionForestLabels", "openni_funcs",
   "depth_frame_time", "lockData", "unlockData", "depth_frame_number",
   "ir_frame_number", "rgb_frame_number", "depth_dim", "rgb_dim", "ir_dim"]

/-- Modelled from the spec: `flip_image_` is initialized from the
compile-time `MIRROR` flag ("true if you want to mirror all kinect data");
no public member mutates it afterwards. -/
def flip_image_init : Bool := MIRROR

/-- C10. In this build mirroring is unconditionally enabled: `MIRROR` is
defined as `true`, no public member function is the runtime toggle
`setFlipImage`, and consequently every exposed buffer of every processed
frame is the mirrored variant of the raw sensor data: the depth buffer reads
the flipped column, the world buffer is the x-negated conversion at the
flipped column, and the registered color buffer registers the flipped
column. -/
theorem mirroring_always_enabled_in_build (intr : Intrinsics) (cam : ColorCam)
    (scale : ℚ) (dmax W Wc Hc : Nat) (raw : Nat → Nat → Nat)
    (color : Int → Int → Nat) (x y : Nat) :
    MIRROR = true ∧
      "setFlipImage" ∉ publicMemberFunctions ∧
      depthBufferOut flip_image_init W raw x y = raw (mirrorCol W x) y ∧
      worldBufferOut flip_image_init intr scale dmax W raw x y =
        mirrorWorldPt (convertDepthPixelToWorld intr scale dmax
          (mirrorCol W x) y (raw (mirrorCol W x) y)) ∧
      registeredBufferOut flip_image_init intr cam scale dmax W Wc Hc raw color x y =
        registerPixel intr cam scale dmax Wc Hc color
          (mirrorCol W x) y (raw (mirrorCol W x) y) :=
  ⟨rfl, by decide, rfl, rfl, rfl⟩
